import Mathlib

/-!
Shallow embedding of the SimpliView document viewer's pure core
(src/document.rs, src/scroll.rs, src/app.rs) and proofs about it.

Real dimensions (`f32` in the source) are modelled as rationals; the
`as i32` casts of the source are modelled by truncation toward zero.
-/

namespace SimpliView

/-- Vertical gap between pages in pixels (at zoom 1.0); `PAGE_GAP` in document.rs. -/
def PAGE_GAP : ℚ := 20

/-- Maximum number of page bitmaps to keep in cache; `MAX_CACHED_PAGES` in document.rs. -/
def MAX_CACHED_PAGES : ℕ := 20

/-- Truncation toward zero of a rational to an integer: the semantics of
Rust's `as i32` cast on a (finite, in-range) `f32`. -/
def qtrunc (q : ℚ) : ℤ := if q < 0 then -⌊-q⌋ else ⌊q⌋

/-- Rust `f32` to `u32` cast: truncation toward zero, saturating at 0. -/
def u32ofQ (q : ℚ) : ℕ := (qtrunc q).toNat

inductive DocumentType
  | Image
  | Pdf
deriving Repr, DecidableEq

/-- A page of the document (`PageData` in document.rs).  The WIC bitmap and
pixel data are abstracted to opaque handles / raw byte lists. -/
structure PageData where
  width : ℚ
  height : ℚ
  wic_bitmap : Option ℕ
  pixel_data : Option (List ℕ)
  stride : ℕ
deriving Repr, DecidableEq, Inhabited

/-- A loaded document (`Document` in document.rs).  The bitmap cache
(`Mutex<HashMap<usize, ID2D1Bitmap>>`) is modelled as an association list
from page index to an abstract bitmap handle, in unspecified order. -/
structure Document where
  doc_type : DocumentType
  pages : List PageData
  bitmap_cache : List (ℕ × ℕ)
deriving Repr, DecidableEq

/-- Pre-computed layout information (`PageLayout` in document.rs). -/
structure PageLayout where
  page_tops : List ℤ
  total_height : ℤ
  max_width : ℤ
  page_sizes : List (ℤ × ℤ)
deriving Repr, DecidableEq

/-- One pass of the `for (i, page)` loop body of `Document::compute_layout`,
iterated over the remaining pages.  State is
(page_tops, page_sizes, current_y, max_width); `i` is the running index and
`n` the page count (for the `i < n - 1` gap test of the source). -/
def layoutLoop (zoom : ℚ) (rotation : ℤ) (scaled_gap : ℤ) (n : ℕ) :
    ℕ → List PageData → (List ℤ × List (ℤ × ℤ) × ℤ × ℤ) →
    (List ℤ × List (ℤ × ℤ) × ℤ × ℤ)
  | _, [], st => st
  | i, page :: rest, (page_tops, page_sizes, current_y, max_width) =>
    let wh : ℚ × ℚ :=
      if rotation = 90 ∨ rotation = 270 then (page.height, page.width)
      else (page.width, page.height)
    let scaled_w := qtrunc (wh.1 * zoom)
    let scaled_h := qtrunc (wh.2 * zoom)
    let y1 := current_y + scaled_h
    let y2 := if i < n - 1 then y1 + scaled_gap else y1
    layoutLoop zoom rotation scaled_gap n (i + 1) rest
      (page_tops ++ [current_y], page_sizes ++ [(scaled_w, scaled_h)], y2,
        max max_width scaled_w)

/-- `Document::compute_layout` of document.rs. -/
def compute_layout (doc : Document) (zoom : ℚ) (rotation : ℤ) : PageLayout :=
  let scaled_gap := qtrunc (PAGE_GAP * zoom)
  let res := layoutLoop zoom rotation scaled_gap doc.pages.length 0 doc.pages
    ([], [], 0, 0)
  { page_tops := res.1
    total_height := res.2.2.1
    max_width := res.2.2.2
    page_sizes := res.2.1 }

/-- The scaled size of one page as the spec describes it: swap (width, height)
when rotation is 90 or 270, multiply by zoom, truncate toward zero. -/
def specScaledSize (zoom : ℚ) (rotation : ℤ) (p : PageData) : ℤ × ℤ :=
  let wh : ℚ × ℚ :=
    if rotation = 90 ∨ rotation = 270 then (p.height, p.width)
    else (p.width, p.height)
  (qtrunc (wh.1 * zoom), qtrunc (wh.2 * zoom))

/-- Page tops per the spec's algorithm, with the inter-page gap a parameter:
each page's top is the running y; after every page except the last, y
additionally advances by the gap. -/
def specTops (zoom : ℚ) (rotation : ℤ) (gap : ℤ) : ℤ → List PageData → List ℤ
  | _, [] => []
  | y, p :: rest =>
    y :: specTops zoom rotation gap
      (y + (specScaledSize zoom rotation p).2 + if rest.isEmpty then 0 else gap)
      rest

/-- The final running y of the spec's algorithm (= total_height). -/
def specFinalY (zoom : ℚ) (rotation : ℤ) (gap : ℤ) : ℤ → List PageData → ℤ
  | y, [] => y
  | y, p :: rest =>
    specFinalY zoom rotation gap
      (y + (specScaledSize zoom rotation p).2 + if rest.isEmpty then 0 else gap)
      rest

/-- The layout the spec's algorithm defines, with the inter-page gap given by
`gapOf zoom`. -/
def specLayout (gapOf : ℚ → ℤ) (doc : Document) (zoom : ℚ) (rotation : ℤ) :
    PageLayout :=
  { page_tops := specTops zoom rotation (gapOf zoom) 0 doc.pages
    total_height := specFinalY zoom rotation (gapOf zoom) 0 doc.pages
    max_width := (doc.pages.map fun p => (specScaledSize zoom rotation p).1).foldl max 0
    page_sizes := doc.pages.map (specScaledSize zoom rotation) }

/-- The spec's layout exactly as claimed: the gap advances y by
round(GAP * zoom). -/
def specLayoutRound (doc : Document) (zoom : ℚ) (rotation : ℤ) : PageLayout :=
  specLayout (fun z => round (PAGE_GAP * z)) doc zoom rotation

/-- The spec's layout with the gap truncated toward zero, as the code
actually computes it. -/
def specLayoutTrunc (doc : Document) (zoom : ℚ) (rotation : ℤ) : PageLayout :=
  specLayout (fun z => qtrunc (PAGE_GAP * z)) doc zoom rotation

theorem layoutLoop_eq_spec (zoom : ℚ) (rotation : ℤ) (gap : ℤ) (n : ℕ) :
    ∀ (l : List PageData) (i : ℕ) (tops : List ℤ) (sizes : List (ℤ × ℤ))
      (y mw : ℤ), i + l.length = n →
      layoutLoop zoom rotation gap n i l (tops, sizes, y, mw) =
        (tops ++ specTops zoom rotation gap y l,
         sizes ++ l.map (specScaledSize zoom rotation),
         specFinalY zoom rotation gap y l,
         (l.map fun p => (specScaledSize zoom rotation p).1).foldl max mw) := by
  intro l
  induction l with
  | nil => intro i tops sizes y mw _; simp [layoutLoop, specTops, specFinalY]
  | cons p rest ih =>
    intro i tops sizes y mw hn
    cases rest with
    | nil =>
      have hc : ¬ (i < n - 1) := by simp at hn; omega
      simp [layoutLoop, hc, specTops, specFinalY, specScaledSize]
    | cons q t =>
      have hc : i < n - 1 := by simp at hn; omega
      rw [layoutLoop, ih (i + 1) _ _ _ _ (by simp at hn ⊢; omega)]
      simp [hc, specTops, specFinalY, specScaledSize, List.append_assoc]

/-- C1 (amended): `compute_layout` produces exactly the spec's vertical-stack
layout, with the inter-page gap equal to GAP * zoom truncated toward zero
(not rounded to nearest). -/
theorem C1_compute_layout_eq_specLayoutTrunc (doc : Document) (zoom : ℚ)
    (rotation : ℤ) :
    compute_layout doc zoom rotation = specLayoutTrunc doc zoom rotation := by
  simp only [compute_layout, specLayoutTrunc, specLayout]
  rw [layoutLoop_eq_spec zoom rotation (qtrunc (PAGE_GAP * zoom))
      doc.pages.length doc.pages 0 [] [] 0 0 (by simp)]
  simp

/-- A two-page 100×100 document. -/
def exDocC1 : Document :=
  { doc_type := DocumentType.Pdf
    pages :=
      [ { width := 100, height := 100, wic_bitmap := none,
          pixel_data := some [], stride := 400 },
        { width := 100, height := 100, wic_bitmap := none,
          pixel_data := some [], stride := 400 } ]
    bitmap_cache := [] }

/-- C1 (counterexample): at zoom 41/32 the code's layout differs from the
claimed one, because the code truncates the scaled gap (20 * 41/32 = 25.625
becomes 25) while the claim rounds it (to 26): total_height is 281, not 282. -/
theorem C1_counterexample :
    compute_layout exDocC1 (41 / 32) 0 ≠ specLayoutRound exDocC1 (41 / 32) 0 ∧
      (compute_layout exDocC1 (41 / 32) 0).total_height = 281 ∧
      (specLayoutRound exDocC1 (41 / 32) 0).total_height = 282 := by
  have h1 : (compute_layout exDocC1 (41 / 32) 0).total_height = 281 := by
    simp [compute_layout, exDocC1, layoutLoop, PAGE_GAP]
    norm_num [qtrunc]
  have h2 : (specLayoutRound exDocC1 (41 / 32) 0).total_height = 282 := by
    simp [specLayoutRound, specLayout, exDocC1, specFinalY, specScaledSize, PAGE_GAP]
    rw [round_eq]
    norm_num [qtrunc]
  refine ⟨fun h => ?_, h1, h2⟩
  rw [h, h2] at h1
  exact absurd h1 (by omega)

/-- The first `for` loop of `Document::find_visible_pages`: over the pages'
(top, (w, h)) data, keep updating `first_visible := i` and break as soon as
`top + h > scroll_y`.  `i` is the running index, `fv` the mutable variable. -/
def firstLoop : List (ℤ × ℤ × ℤ) → ℤ → ℕ → ℕ → ℕ
  | [], _, _, fv => fv
  | (top, sz) :: rest, scroll_y, i, _ =>
    if top + sz.2 > scroll_y then i else firstLoop rest scroll_y (i + 1) i

/-- The second loop of `Document::find_visible_pages`: from `i`, break when
`page_tops[i] >= viewport_bottom`, otherwise set `last_visible := i + 1`. -/
def lastLoop (tops : List ℤ) (viewport_bottom : ℤ) (n : ℕ) (i lv : ℕ) : ℕ :=
  if i < n then
    if tops.getD i 0 ≥ viewport_bottom then lv
    else lastLoop tops viewport_bottom n (i + 1) (i + 1)
  else lv
termination_by n - i

/-- `Document::find_visible_pages` of document.rs. -/
def find_visible_pages (doc : Document) (layout : PageLayout)
    (scroll_y viewport_height : ℤ) : ℕ × ℕ :=
  if doc.pages.isEmpty then (0, 0)
  else
    let viewport_bottom := scroll_y + viewport_height
    let first_visible :=
      firstLoop (layout.page_tops.zip layout.page_sizes) scroll_y 0 0
    let last_visible :=
      lastLoop layout.page_tops viewport_bottom doc.pages.length
        first_visible first_visible
    (first_visible, min last_visible doc.pages.length)

/-- `Document::page_dimensions` of document.rs: falls back to (0, 0) when the
page index is out of range. -/
def page_dimensions (doc : Document) (page : ℕ) : ℚ × ℚ :=
  match doc.pages.get? page with
  | some p => (p.width, p.height)
  | none => (0, 0)

/-- The error the spec says out-of-range page queries produce. -/
inductive SpecPageError
  | IndexOutOfRange
deriving Repr, DecidableEq

/-- The page-dimension query as the spec describes it (for comparison with
`page_dimensions`): fails with IndexOutOfRange when `page ≥ page count`. -/
def page_dimensions_spec (doc : Document) (page : ℕ) :
    Except SpecPageError (ℚ × ℚ) :=
  if h : page < doc.pages.length then
    .ok ((doc.pages.get ⟨page, h⟩).width, (doc.pages.get ⟨page, h⟩).height)
  else .error .IndexOutOfRange

/-- `impl Clone for Document` of document.rs: pages are copied field by field,
the bitmap cache is replaced by a fresh empty one. -/
def cloneDoc (d : Document) : Document :=
  { doc_type := d.doc_type
    pages := d.pages.map fun p =>
      { width := p.width
        height := p.height
        wic_bitmap := p.wic_bitmap
        pixel_data := p.pixel_data
        stride := p.stride }
    bitmap_cache := [] }

/-- Pixels to scroll per line; `LINE_SCROLL_PIXELS` in scroll.rs. -/
def LINE_SCROLL_PIXELS : ℤ := 40

/-- Scroll actions from WM_HSCROLL/WM_VSCROLL (`ScrollAction` in scroll.rs). -/
inductive ScrollAction
  | LineUp
  | LineDown
  | PageUp
  | PageDown
  | ThumbTrack
  | ThumbPosition
  | Top
  | Bottom
  | EndScroll
deriving Repr, DecidableEq

/-- `ScrollManager::calculate_new_pos` of scroll.rs.  Rust's
`track_pos.clamp(0, max_scroll)` is `min (max track_pos 0) max_scroll`
(well-defined here since `max_scroll ≥ 0`). -/
def calculate_new_pos (action : ScrollAction)
    (current_pos page_size content_size viewport_size track_pos : ℤ) : ℤ :=
  let max_scroll := max (content_size - viewport_size) 0
  match action with
  | .LineUp => max (current_pos - LINE_SCROLL_PIXELS) 0
  | .LineDown => min (current_pos + LINE_SCROLL_PIXELS) max_scroll
  | .PageUp => max (current_pos - page_size) 0
  | .PageDown => min (current_pos + page_size) max_scroll
  | .Top => 0
  | .Bottom => max_scroll
  | .ThumbTrack => min (max track_pos 0) max_scroll
  | .ThumbPosition => min (max track_pos 0) max_scroll
  | .EndScroll => current_pos

/-- C8: on a zero-page document, compute_layout returns the degenerate layout
(empty tops and sizes, zero total height) and find_visible_pages returns
(0, 0), for every zoom, rotation, scroll offset, viewport height and layout. -/
theorem C8_empty_document_degenerate (doc : Document) (h : doc.pages = [])
    (zoom : ℚ) (rotation : ℤ) (layout : PageLayout) (scroll_y viewport_height : ℤ) :
    compute_layout doc zoom rotation =
      { page_tops := [], total_height := 0, max_width := 0, page_sizes := [] } ∧
    find_visible_pages doc layout scroll_y viewport_height = (0, 0) := by
  constructor
  · simp [compute_layout, h, layoutLoop]
  · simp [find_visible_pages, h]

/-- A concrete empty PDF document. -/
def exDocEmpty : Document :=
  { doc_type := DocumentType.Pdf, pages := [], bitmap_cache := [] }

/-- C8 witness: the empty-document theorem at a concrete empty document. -/
theorem C8_empty_document_degenerate_witness :
    compute_layout exDocEmpty 1 0 =
      { page_tops := [], total_height := 0, max_width := 0, page_sizes := [] } ∧
    find_visible_pages exDocEmpty
      { page_tops := [], total_height := 0, max_width := 0, page_sizes := [] }
      5 7 = (0, 0) :=
  C8_empty_document_degenerate exDocEmpty rfl 1 0 _ 5 7

/-- A concrete one-page 100×50 document. -/
def exDocC7 : Document :=
  { doc_type := DocumentType.Image
    pages := [{ width := 100, height := 50, wic_bitmap := some 0,
                pixel_data := none, stride := 0 }]
    bitmap_cache := [] }

/-- C7 (counterexample): querying page 1 of a one-page document does not fail:
the code returns the in-band value (0, 0), while the spec's contract demands
an IndexOutOfRange error. -/
theorem C7_counterexample :
    page_dimensions exDocC7 1 = (0, 0) ∧
      page_dimensions_spec exDocC7 1 = .error .IndexOutOfRange := by
  constructor <;> rfl

/-- C7 (amended): for every document and page index ≥ the page count,
`page_dimensions` returns the fallback value (0, 0) (it does not fail). -/
theorem C7_out_of_range_returns_zero (doc : Document) (page : ℕ)
    (h : doc.pages.length ≤ page) : page_dimensions doc page = (0, 0) := by
  simp [page_dimensions, List.getElem?_eq_none h]

/-- C7 witness: the amended theorem at the concrete one-page document. -/
theorem C7_out_of_range_returns_zero_witness :
    exDocC7.pages.length ≤ 3 ∧ page_dimensions exDocC7 3 = (0, 0) :=
  ⟨by decide, C7_out_of_range_returns_zero exDocC7 3 (by decide)⟩

/-- C9: cloning a document yields an empty bitmap cache regardless of the
original's cache, preserves the document type, page count and every page's
(width, height), and the original document value is untouched. -/
theorem C9_clone_empties_cache (d : Document) :
    (cloneDoc d).bitmap_cache = [] ∧
    (cloneDoc d).doc_type = d.doc_type ∧
    (cloneDoc d).pages.length = d.pages.length ∧
    (∀ page, page_dimensions (cloneDoc d) page = page_dimensions d page) := by
  refine ⟨rfl, rfl, by simp [cloneDoc], fun page => ?_⟩
  have hpages : (cloneDoc d).pages = d.pages := by
    simp [cloneDoc]
  simp [page_dimensions, hpages]

/-- C5 (counterexample): with the current position outside [0, maxScroll]
(content 50, viewport 50, so maxScroll = 0, current position 100), a LineUp
scroll yields 60, not the claimed clamp of currentPos − 40 to [0, maxScroll]
(which is 0): the code clamps line/page steps on one side only. -/
theorem C5_counterexample :
    calculate_new_pos .LineUp 100 50 50 50 0 = 60 ∧
      calculate_new_pos .LineUp 100 50 50 50 0 ≠
        min (max ((100 : ℤ) - 40) 0) (max ((50 : ℤ) - 50) 0) := by
  constructor <;> decide

/-- C5 (amended): `calculate_new_pos` is a pure function of its arguments
with maxScroll = max(0, contentSize − viewportSize): thumb-track and
thumb-release give the track position clamped to [0, maxScroll]; Top gives 0;
Bottom gives maxScroll; and provided currentPos already lies in
[0, maxScroll] and the page step is nonnegative, the line and page
increment/decrement actions give currentPos ± step (line step 40, page step
the given page step size) clamped to [0, maxScroll].  (Outside those bounds
the code clamps the stepped actions on one side only.) -/
theorem C5_calculate_new_pos_spec (current_pos page_size content_size
    viewport_size track_pos : ℤ) :
    calculate_new_pos .Top current_pos page_size content_size viewport_size
        track_pos = 0 ∧
    calculate_new_pos .Bottom current_pos page_size content_size viewport_size
        track_pos = max (content_size - viewport_size) 0 ∧
    calculate_new_pos .ThumbTrack current_pos page_size content_size
        viewport_size track_pos =
      min (max track_pos 0) (max (content_size - viewport_size) 0) ∧
    calculate_new_pos .ThumbPosition current_pos page_size content_size
        viewport_size track_pos =
      min (max track_pos 0) (max (content_size - viewport_size) 0) ∧
    (0 ≤ current_pos → current_pos ≤ max (content_size - viewport_size) 0 →
      0 ≤ page_size →
      calculate_new_pos .LineUp current_pos page_size content_size
          viewport_size track_pos =
        min (max (current_pos - LINE_SCROLL_PIXELS) 0)
          (max (content_size - viewport_size) 0) ∧
      calculate_new_pos .LineDown current_pos page_size content_size
          viewport_size track_pos =
        min (max (current_pos + LINE_SCROLL_PIXELS) 0)
          (max (content_size - viewport_size) 0) ∧
      calculate_new_pos .PageUp current_pos page_size content_size
          viewport_size track_pos =
        min (max (current_pos - page_size) 0)
          (max (content_size - viewport_size) 0) ∧
      calculate_new_pos .PageDown current_pos page_size content_size
          viewport_size track_pos =
        min (max (current_pos + page_size) 0)
          (max (content_size - viewport_size) 0)) := by
  refine ⟨rfl, rfl, rfl, rfl, fun h0 hm hp => ⟨?_, ?_, ?_, ?_⟩⟩ <;>
    simp only [calculate_new_pos, LINE_SCROLL_PIXELS] <;> omega

/-- C5 witness: the amended theorem at current position 50 in a
content-200 / viewport-100 window (maxScroll 100), track position 150. -/
theorem C5_calculate_new_pos_spec_witness :
    calculate_new_pos .ThumbTrack 50 100 200 100 150 = 100 ∧
      calculate_new_pos .LineDown 50 100 200 100 150 = 90 ∧
      calculate_new_pos .PageDown 50 100 200 100 150 = 100 := by
  have h := C5_calculate_new_pos_spec 50 100 200 100 150
  have h5 := h.2.2.2.2 (by decide) (by decide) (by decide)
  refine ⟨?_, ?_, ?_⟩
  · rw [h.2.2.1]; decide
  · rw [h5.2.1]; decide
  · rw [h5.2.2.2]; decide

/-- Distance of a cached page index from the center page, as computed by
`evict_distant_pages`: `(p as i32 - center_page as i32).abs()`. -/
def pageDist (p center : ℕ) : ℤ := |(p : ℤ) - (center : ℤ)|

/-- `Document::evict_distant_pages` of document.rs, modelled on the cache's
key set (the bitmap values play no role): when more than MAX_CACHED_PAGES
entries are cached, sort the keys by distance from the center page and remove
every key beyond the first MAX_CACHED_PAGES from the cache. -/
def evict_distant_pages (cache : List ℕ) (center_page : ℕ) : List ℕ :=
  if cache.length ≤ MAX_CACHED_PAGES then cache
  else
    let pages := cache.mergeSort fun a b =>
      decide (pageDist a center_page ≤ pageDist b center_page)
    cache.filter fun p => !(pages.drop MAX_CACHED_PAGES).contains p

/-- The Bool comparison `evict_distant_pages` sorts by. -/
def distLE (center : ℕ) (a b : ℕ) : Bool :=
  decide (pageDist a center ≤ pageDist b center)

theorem evict_eq_of_le (cache : List ℕ) (center : ℕ)
    (h : cache.length ≤ MAX_CACHED_PAGES) :
    evict_distant_pages cache center = cache := by
  simp [evict_distant_pages, h]

theorem evict_sorted_pairwise (cache : List ℕ) (center : ℕ) :
    (cache.mergeSort (distLE center)).Pairwise
      (fun a b => pageDist a center ≤ pageDist b center) := by
  have h := @List.sorted_mergeSort ℕ (distLE center)
    (fun a b c hab hbc => by
      simp only [distLE, decide_eq_true_eq] at *; exact le_trans hab hbc)
    (fun a b => by
      simp only [distLE, Bool.or_eq_true, decide_eq_true_eq]
      exact le_total _ _)
    cache
  exact h.imp fun hab => by simpa [distLE] using hab

theorem evict_perm_take (cache : List ℕ) (center : ℕ)
    (h : MAX_CACHED_PAGES < cache.length) (hnd : cache.Nodup) :
    (evict_distant_pages cache center).Perm
      ((cache.mergeSort (distLE center)).take MAX_CACHED_PAGES) := by
  have hle : ¬ cache.length ≤ MAX_CACHED_PAGES := by omega
  have hperm : (cache.mergeSort (distLE center)).Perm cache :=
    List.mergeSort_perm cache (distLE center)
  have hnds : (cache.mergeSort (distLE center)).Nodup :=
    (hperm.nodup_iff).mpr hnd
  set sorted := cache.mergeSort (distLE center) with hsorted
  set tk := sorted.take MAX_CACHED_PAGES with htk
  set dp := sorted.drop MAX_CACHED_PAGES with hdp
  have hsplit : tk ++ dp = sorted := List.take_append_drop _ _
  have hdisj : ∀ x ∈ tk, x ∉ dp := by
    rw [← hsplit] at hnds
    intro x hx hx2
    exact (List.nodup_append.mp hnds).2.2 hx hx2
  have hfun : ∀ p : ℕ, (!dp.contains p) = decide (p ∉ dp) := by
    intro p
    by_cases hp : p ∈ dp <;> simp [hp, List.contains, List.elem_eq_mem]
  have : evict_distant_pages cache center = cache.filter fun p => decide (p ∉ dp) := by
    simp only [evict_distant_pages, hle, if_false, ← hsorted, ← hdp]
    exact List.filter_congr fun p _ => hfun p
  rw [this]
  have h2 : (cache.filter fun p => decide (p ∉ dp)).Perm
      (sorted.filter fun p => decide (p ∉ dp)) := (hperm.symm).filter _
  have h3 : (sorted.filter fun p => decide (p ∉ dp)) = tk := by
    rw [← hsplit, List.filter_append]
    have htkf : (tk.filter fun p => decide (p ∉ dp)) = tk :=
      List.filter_eq_self.mpr fun a ha => by simpa using hdisj a ha
    have hdpf : (dp.filter fun p => decide (p ∉ dp)) = [] :=
      List.filter_eq_nil_iff.mpr fun a ha => by simpa using ha
    rw [htkf, hdpf, List.append_nil]
  rw [← h3]
  exact h2

/-- C3: `evict_distant_pages(center)` is a no-op when the cache holds at most
MAX_CACHED_PAGES (20) entries; otherwise (for a duplicate-free key set, as a
HashMap guarantees) it leaves exactly MAX_CACHED_PAGES entries, every retained
index was present before, and every retained index is no farther from the
center than any evicted index. -/
theorem C3_evict_distant_pages_spec (cache : List ℕ) (center : ℕ) :
    (cache.length ≤ MAX_CACHED_PAGES →
      evict_distant_pages cache center = cache) ∧
    (MAX_CACHED_PAGES < cache.length → cache.Nodup →
      (evict_distant_pages cache center).length = MAX_CACHED_PAGES ∧
      (∀ k ∈ evict_distant_pages cache center, k ∈ cache) ∧
      (∀ r ∈ evict_distant_pages cache center, ∀ e ∈ cache,
        e ∉ evict_distant_pages cache center →
        pageDist r center ≤ pageDist e center)) := by
  refine ⟨evict_eq_of_le cache center, fun h hnd => ?_⟩
  have hperm := evict_perm_take cache center h hnd
  have hms : (cache.mergeSort (distLE center)).Perm cache :=
    List.mergeSort_perm cache (distLE center)
  have hsplit : (cache.mergeSort (distLE center)).take MAX_CACHED_PAGES ++
      (cache.mergeSort (distLE center)).drop MAX_CACHED_PAGES =
      cache.mergeSort (distLE center) := List.take_append_drop _ _
  refine ⟨?_, ?_, ?_⟩
  · rw [hperm.length_eq, List.length_take, List.length_mergeSort]
    omega
  · intro k hk
    have : k ∈ (cache.mergeSort (distLE center)).take MAX_CACHED_PAGES :=
      hperm.mem_iff.mp hk
    exact hms.mem_iff.mp (List.mem_of_mem_take this)
  · intro r hr e he hne
    have hrt : r ∈ (cache.mergeSort (distLE center)).take MAX_CACHED_PAGES :=
      hperm.mem_iff.mp hr
    have hes : e ∈ cache.mergeSort (distLE center) := hms.mem_iff.mpr he
    have hed : e ∈ (cache.mergeSort (distLE center)).drop MAX_CACHED_PAGES := by
      rw [← hsplit] at hes
      rcases List.mem_append.mp hes with h1 | h2
      · exact absurd (hperm.mem_iff.mpr h1) hne
      · exact h2
    have hpw := evict_sorted_pairwise cache center
    rw [← hsplit] at hpw
    exact (List.pairwise_append.mp hpw).2.2 r hrt e hed

/-- A 21-entry cache, pages 0..20. -/
def exCacheC3 : List ℕ := List.range 21

/-- C3 witness: evicting around center page 0 on a 21-entry cache keeps the
20 closest pages (0..19) and drops page 20. -/
theorem C3_evict_distant_pages_spec_witness :
    (evict_distant_pages exCacheC3 0).length = MAX_CACHED_PAGES ∧
      (∀ k ∈ evict_distant_pages exCacheC3 0, k ∈ exCacheC3) := by
  have h := (C3_evict_distant_pages_spec exCacheC3 0).2 (by decide)
    (by decide)
  exact ⟨h.1, h.2.1⟩

/-- C10: a cache entry keyed by the center page index survives
`evict_distant_pages(center)` (for a duplicate-free key set, as a HashMap
guarantees). -/
theorem C10_center_page_never_evicted (cache : List ℕ) (center : ℕ)
    (hmem : center ∈ cache) (hnd : cache.Nodup) :
    center ∈ evict_distant_pages cache center := by
  by_cases h : cache.length ≤ MAX_CACHED_PAGES
  · rw [evict_eq_of_le cache center h]; exact hmem
  · have h' : MAX_CACHED_PAGES < cache.length := by omega
    have hperm := evict_perm_take cache center h' hnd
    have hms : (cache.mergeSort (distLE center)).Perm cache :=
      List.mergeSort_perm cache (distLE center)
    have hsplit : (cache.mergeSort (distLE center)).take MAX_CACHED_PAGES ++
        (cache.mergeSort (distLE center)).drop MAX_CACHED_PAGES =
        cache.mergeSort (distLE center) := List.take_append_drop _ _
    have hnds : (cache.mergeSort (distLE center)).Nodup :=
      (hms.nodup_iff).mpr hnd
    rw [hperm.mem_iff]
    have hcs : center ∈ cache.mergeSort (distLE center) := hms.mem_iff.mpr hmem
    rw [← hsplit] at hcs
    rcases List.mem_append.mp hcs with h1 | h2
    · exact h1
    · exfalso
      have hlen : ((cache.mergeSort (distLE center)).take
          MAX_CACHED_PAGES).length = MAX_CACHED_PAGES := by
        rw [List.length_take, List.length_mergeSort]; omega
      have hne : (cache.mergeSort (distLE center)).take MAX_CACHED_PAGES ≠ [] := by
        intro hnil
        rw [hnil] at hlen
        simp [MAX_CACHED_PAGES] at hlen
      obtain ⟨x, hx⟩ := List.exists_mem_of_ne_nil _ hne
      have hpw := evict_sorted_pairwise cache center
      rw [← hsplit] at hpw
      have hxc : pageDist x center ≤ pageDist center center :=
        (List.pairwise_append.mp hpw).2.2 x hx center h2
      have : pageDist x center = 0 := by
        have h0 : pageDist center center = 0 := by simp [pageDist]
        have hnn : 0 ≤ pageDist x center := abs_nonneg _
        omega
      have hxeq : x = center := by
        have := abs_eq_zero.mp this
        have : (x : ℤ) = center := by omega
        exact_mod_cast this
      rw [hxeq] at hx
      rw [← hsplit] at hnds
      exact (List.nodup_append.mp hnds).2.2 hx h2

/-- A 21-entry cache containing page 5. -/
def exCacheC10 : List ℕ := List.range 21

/-- C10 witness: page 5 survives eviction around center 5 on a 21-entry
cache. -/
theorem C10_center_page_never_evicted_witness :
    5 ∈ evict_distant_pages exCacheC10 5 :=
  C10_center_page_never_evicted exCacheC10 5 (by decide) (by decide)

/-- The fixed zoom table `App::ZOOM_LEVELS` of app.rs, as exact rationals. -/
def ZOOM_LEVELS : List ℚ :=
  [1/10, 1/8, 3/20, 7/40, 1/5, 1/4, 33/100, 2/5, 1/2, 3/5, 67/100, 3/4, 17/20,
   1, 11/10, 5/4, 7/5, 3/2, 7/4, 2, 5/2, 3, 4, 5, 6, 8, 10]

/-- The zoom-value part of `App::cmd_zoom_in`: the first table entry
`z >= current * 1.10`, with fallback 10.0. -/
def cmd_zoom_in (current : ℚ) : ℚ :=
  let min_zoom := current * (11/10)
  (ZOOM_LEVELS.find? fun z => decide (z ≥ min_zoom)).getD 10

/-- The zoom-value part of `App::cmd_zoom_out`: the first entry of the
reversed table with `z <= current / 1.10`, with fallback 0.10. -/
def cmd_zoom_out (current : ℚ) : ℚ :=
  let max_zoom := current / (11/10)
  (ZOOM_LEVELS.reverse.find? fun z => decide (z ≤ max_zoom)).getD (1/10)

/-- The zoom-relevant part of the app state mutated by the two commands. -/
structure ZoomState where
  zoom : ℚ
  fit_to_page : Bool
deriving Repr, DecidableEq

/-- The state transition of `App::cmd_zoom_in`. -/
def cmd_zoom_in_state (s : ZoomState) : ZoomState :=
  { zoom := cmd_zoom_in s.zoom, fit_to_page := false }

/-- The state transition of `App::cmd_zoom_out`. -/
def cmd_zoom_out_state (s : ZoomState) : ZoomState :=
  { zoom := cmd_zoom_out s.zoom, fit_to_page := false }

theorem find?_first_ge (t : ℚ) :
    ∀ (l : List ℚ), l.Pairwise (· ≤ ·) →
      ∀ r, (l.find? fun z => decide (z ≥ t)) = some r →
        t ≤ r ∧ r ∈ l ∧ ∀ z ∈ l, t ≤ z → r ≤ z := by
  intro l
  induction l with
  | nil => intro _ r hr; simp [List.find?] at hr
  | cons a rest ih =>
    intro hp r hr
    by_cases ha : a ≥ t
    · rw [List.find?_cons_of_pos _ (by simpa using ha)] at hr
      obtain rfl : a = r := by injection hr
      refine ⟨ha, List.mem_cons_self a rest, fun z hz _ => ?_⟩
      rcases List.mem_cons.mp hz with rfl | hz2
      · exact le_refl _
      · exact (List.pairwise_cons.mp hp).1 z hz2
    · rw [List.find?_cons_of_neg _ (by simpa using ha)] at hr
      obtain ⟨h1, h2, h3⟩ := ih (List.pairwise_cons.mp hp).2 r hr
      refine ⟨h1, List.mem_cons_of_mem a h2, fun z hz hzt => ?_⟩
      rcases List.mem_cons.mp hz with rfl | hz2
      · exact absurd hzt ha
      · exact h3 z hz2 hzt

theorem find?_first_le_desc (t : ℚ) :
    ∀ (l : List ℚ), l.Pairwise (fun a b => b ≤ a) →
      ∀ r, (l.find? fun z => decide (z ≤ t)) = some r →
        r ≤ t ∧ r ∈ l ∧ ∀ z ∈ l, z ≤ t → z ≤ r := by
  intro l
  induction l with
  | nil => intro _ r hr; simp [List.find?] at hr
  | cons a rest ih =>
    intro hp r hr
    by_cases ha : a ≤ t
    · rw [List.find?_cons_of_pos _ (by simpa using ha)] at hr
      obtain rfl : a = r := by injection hr
      refine ⟨ha, List.mem_cons_self a rest, fun z hz _ => ?_⟩
      rcases List.mem_cons.mp hz with rfl | hz2
      · exact le_refl _
      · exact (List.pairwise_cons.mp hp).1 z hz2
    · rw [List.find?_cons_of_neg _ (by simpa using ha)] at hr
      obtain ⟨h1, h2, h3⟩ := ih (List.pairwise_cons.mp hp).2 r hr
      refine ⟨h1, List.mem_cons_of_mem a h2, fun z hz hzt => ?_⟩
      rcases List.mem_cons.mp hz with rfl | hz2
      · exact absurd hzt ha
      · exact h3 z hz2 hzt

theorem ZOOM_LEVELS_sorted : ZOOM_LEVELS.Pairwise (· ≤ ·) := by
  rw [← List.chain'_iff_pairwise]
  norm_num [ZOOM_LEVELS, List.chain'_cons]

/-- C4: zoom-in yields the smallest zoom-table entry ≥ currentZoom * 1.10
(fallback: the table maximum 10 when no entry qualifies); zoom-out yields the
largest entry ≤ currentZoom / 1.10 (fallback: the table minimum 1/10); both
results are table entries and both transitions clear fit_to_page. -/
theorem C4_zoom_transitions (c : ℚ) :
    cmd_zoom_in c ∈ ZOOM_LEVELS ∧
    ((∃ z ∈ ZOOM_LEVELS, c * (11/10) ≤ z) →
      c * (11/10) ≤ cmd_zoom_in c ∧
      ∀ z ∈ ZOOM_LEVELS, c * (11/10) ≤ z → cmd_zoom_in c ≤ z) ∧
    ((∀ z ∈ ZOOM_LEVELS, z < c * (11/10)) → cmd_zoom_in c = 10) ∧
    cmd_zoom_out c ∈ ZOOM_LEVELS ∧
    ((∃ z ∈ ZOOM_LEVELS, z ≤ c / (11/10)) →
      cmd_zoom_out c ≤ c / (11/10) ∧
      ∀ z ∈ ZOOM_LEVELS, z ≤ c / (11/10) → z ≤ cmd_zoom_out c) ∧
    ((∀ z ∈ ZOOM_LEVELS, c / (11/10) < z) → cmd_zoom_out c = 1/10) ∧
    (∀ s : ZoomState, (cmd_zoom_in_state s).fit_to_page = false ∧
      (cmd_zoom_out_state s).fit_to_page = false) := by
  have hrev : ZOOM_LEVELS.reverse.Pairwise (fun a b => b ≤ a) :=
    List.pairwise_reverse.mpr ZOOM_LEVELS_sorted
  constructor
  · cases hf : ZOOM_LEVELS.find? fun z => decide (z ≥ c * (11/10)) with
    | none => simp only [cmd_zoom_in, hf, Option.getD_none]; norm_num [ZOOM_LEVELS]
    | some r =>
      simp only [cmd_zoom_in, hf, Option.getD_some]
      exact (find?_first_ge _ _ ZOOM_LEVELS_sorted r hf).2.1
  constructor
  · intro ⟨z, hz, hzt⟩
    cases hf : ZOOM_LEVELS.find? fun w => decide (w ≥ c * (11/10)) with
    | none =>
      exact absurd ((List.find?_eq_none.mp hf z hz)) (by simpa using hzt)
    | some r =>
      obtain ⟨h1, _, h3⟩ := find?_first_ge _ _ ZOOM_LEVELS_sorted r hf
      simp only [cmd_zoom_in, hf, Option.getD_some]
      exact ⟨h1, h3⟩
  constructor
  · intro hall
    have hf : (ZOOM_LEVELS.find? fun w => decide (w ≥ c * (11/10))) = none :=
      List.find?_eq_none.mpr fun z hz => by
        simpa using not_le.mpr (hall z hz)
    simp [cmd_zoom_in, hf]
  constructor
  · cases hf : ZOOM_LEVELS.reverse.find? fun z => decide (z ≤ c / (11/10)) with
    | none => simp only [cmd_zoom_out, hf, Option.getD_none]; norm_num [ZOOM_LEVELS]
    | some r =>
      simp only [cmd_zoom_out, hf, Option.getD_some]
      exact List.mem_reverse.mp (find?_first_le_desc _ _ hrev r hf).2.1
  constructor
  · intro ⟨z, hz, hzt⟩
    cases hf : ZOOM_LEVELS.reverse.find? fun w => decide (w ≤ c / (11/10)) with
    | none =>
      exact absurd (List.find?_eq_none.mp hf z (List.mem_reverse.mpr hz))
        (by simpa using hzt)
    | some r =>
      obtain ⟨h1, _, h3⟩ := find?_first_le_desc _ _ hrev r hf
      simp only [cmd_zoom_out, hf, Option.getD_some]
      exact ⟨h1, fun w hw hwt => h3 w (List.mem_reverse.mpr hw) hwt⟩
  constructor
  · intro hall
    have hf : (ZOOM_LEVELS.reverse.find? fun w => decide (w ≤ c / (11/10))) = none :=
      List.find?_eq_none.mpr fun z hz => by
        simpa using not_le.mpr (hall z (List.mem_reverse.mp hz))
    simp [cmd_zoom_out, hf]
  · intro s
    exact ⟨rfl, rfl⟩

/-- C4 witness: starting from zoom 1, zoom-in lands on a table entry in
[1.10, 1.10] (i.e. 1.10) and zoom-out on an entry in [0.85, 10/11]. -/
theorem C4_zoom_transitions_witness :
    (1 : ℚ) * (11/10) ≤ cmd_zoom_in 1 ∧ cmd_zoom_in 1 ≤ 11/10 ∧
      cmd_zoom_out 1 ≤ (1 : ℚ) / (11/10) ∧ (17 : ℚ)/20 ≤ cmd_zoom_out 1 := by
  have h := C4_zoom_transitions 1
  have hin := h.2.1 ⟨11/10, by norm_num [ZOOM_LEVELS], by norm_num⟩
  have hout := h.2.2.2.2.1 ⟨17/20, by norm_num [ZOOM_LEVELS], by norm_num⟩
  exact ⟨hin.1, hin.2 (11/10) (by norm_num [ZOOM_LEVELS]) (by norm_num),
    hout.1, hout.2 (17/20) (by norm_num [ZOOM_LEVELS]) (by norm_num)⟩

/-- `Document::get_page_bitmap` of document.rs.  The two Direct2D bitmap
constructors of the render target are parameters (`createFromWic` for
`CreateBitmapFromWicBitmap`, `createFromPixels` for `CreateBitmap`), each
fallible with error type ε; `fromWin32` is the error produced by
`Error::from_win32()`.  Returns the result, the cache after the call, and how
many times a bitmap-creation (decode/materialise) step ran. -/
def get_page_bitmap {ε : Type} (createFromWic : ℕ → Except ε ℕ)
    (createFromPixels : ℕ × ℕ → List ℕ → ℕ → Except ε ℕ) (fromWin32 : ε)
    (doc : Document) (page : ℕ) : Except ε ℕ × List (ℕ × ℕ) × ℕ :=
  match doc.bitmap_cache.lookup page with
  | some bitmap => (.ok bitmap, doc.bitmap_cache, 0)
  | none =>
    match doc.pages.get? page with
    | none => (.error fromWin32, doc.bitmap_cache, 0)
    | some page_data =>
      match page_data.wic_bitmap with
      | some wic_bitmap =>
        match createFromWic wic_bitmap with
        | .ok bitmap => (.ok bitmap, (page, bitmap) :: doc.bitmap_cache, 1)
        | .error e => (.error e, doc.bitmap_cache, 1)
      | none =>
        match page_data.pixel_data with
        | some pixel_data =>
          match createFromPixels (u32ofQ page_data.width, u32ofQ page_data.height)
              pixel_data page_data.stride with
          | .ok bitmap => (.ok bitmap, (page, bitmap) :: doc.bitmap_cache, 1)
          | .error e => (.error e, doc.bitmap_cache, 1)
        | none => (.error fromWin32, doc.bitmap_cache, 0)

/-- C6: on a cache hit, `get_page_bitmap` returns the cached bitmap with no
decode step and an unchanged cache; on a cache miss whose decode step fails
(and on the out-of-range and no-data error paths), the error propagates to
the caller and the cache is left unmodified. -/
theorem C6_get_page_bitmap_cache (ε : Type) (createFromWic : ℕ → Except ε ℕ)
    (createFromPixels : ℕ × ℕ → List ℕ → ℕ → Except ε ℕ) (fromWin32 : ε)
    (doc : Document) (page : ℕ) :
    (∀ b, doc.bitmap_cache.lookup page = some b →
      get_page_bitmap createFromWic createFromPixels fromWin32 doc page =
        (.ok b, doc.bitmap_cache, 0)) ∧
    (∀ err,
      (get_page_bitmap createFromWic createFromPixels fromWin32 doc page).1 =
        .error err →
      (get_page_bitmap createFromWic createFromPixels fromWin32 doc page).2.1 =
        doc.bitmap_cache) ∧
    (∀ page_data wic e, doc.bitmap_cache.lookup page = none →
      doc.pages.get? page = some page_data →
      page_data.wic_bitmap = some wic → createFromWic wic = .error e →
      get_page_bitmap createFromWic createFromPixels fromWin32 doc page =
        (.error e, doc.bitmap_cache, 1)) ∧
    (∀ page_data px e, doc.bitmap_cache.lookup page = none →
      doc.pages.get? page = some page_data → page_data.wic_bitmap = none →
      page_data.pixel_data = some px →
      createFromPixels (u32ofQ page_data.width, u32ofQ page_data.height) px
        page_data.stride = .error e →
      get_page_bitmap createFromWic createFromPixels fromWin32 doc page =
        (.error e, doc.bitmap_cache, 1)) := by
  refine ⟨fun b hb => ?_, fun err herr => ?_, fun pd wic e h1 h2 h3 h4 => ?_,
    fun pd px e h1 h2 h3 h4 h5 => ?_⟩
  · simp [get_page_bitmap, hb]
  · unfold get_page_bitmap at herr ⊢
    cases hl : doc.bitmap_cache.lookup page with
    | some b => simp [hl]
    | none =>
      simp only [hl] at herr ⊢
      cases hg : doc.pages.get? page with
      | none => simp [hg]
      | some pd =>
        simp only [hg] at herr ⊢
        cases hw : pd.wic_bitmap with
        | some w =>
          simp only [hw] at herr ⊢
          cases hc : createFromWic w with
          | ok b => rw [hc] at herr; simp at herr
          | error e => simp [hc]
        | none =>
          simp only [hw] at herr ⊢
          cases hpx : pd.pixel_data with
          | none => simp [hpx]
          | some px =>
            simp only [hpx] at herr ⊢
            cases hc : createFromPixels (u32ofQ pd.width, u32ofQ pd.height) px
                pd.stride with
            | ok b => rw [hc] at herr; simp at herr
            | error e => simp [hc]
  · rw [List.get?_eq_getElem?] at h2
    simp [get_page_bitmap, h1, h2, h3, h4]
  · rw [List.get?_eq_getElem?] at h2
    simp [get_page_bitmap, h1, h2, h3, h4, h5]

/-- A one-page document whose page carries pixel data, with an empty cache. -/
def exDocC6 : Document :=
  { doc_type := DocumentType.Pdf
    pages := [{ width := 2, height := 1, wic_bitmap := none,
                pixel_data := some [1, 2, 3, 4, 5, 6, 7, 8], stride := 8 }]
    bitmap_cache := [] }

/-- The same document with page 0's bitmap cached as handle 42. -/
def exDocC6cached : Document :=
  { exDocC6 with bitmap_cache := [(0, 42)] }

/-- C6 witness: with bitmap 42 cached, the call returns it with no decode and
an unchanged cache; with an empty cache and a failing pixel decode, the error
propagates and the cache stays empty. -/
theorem C6_get_page_bitmap_cache_witness :
    get_page_bitmap (fun _ => .error 7) (fun _ _ _ => .error 7) 9
        exDocC6cached 0 = (.ok 42, [(0, 42)], 0) ∧
      get_page_bitmap (fun _ => .error 7) (fun _ _ _ => .error 7) 9
        exDocC6 0 = (.error 7, [], 1) := by
  constructor
  · exact (C6_get_page_bitmap_cache ℕ (fun _ => .error 7) (fun _ _ _ => .error 7)
      9 exDocC6cached 0).1 42 rfl
  · exact (C6_get_page_bitmap_cache ℕ (fun _ => .error 7) (fun _ _ _ => .error 7)
      9 exDocC6 0).2.2.2 _ [1, 2, 3, 4, 5, 6, 7, 8] 7 rfl rfl rfl rfl rfl

theorem qtrunc_nonneg (q : ℚ) (h : 0 ≤ q) : 0 ≤ qtrunc q := by
  rw [qtrunc, if_neg (not_lt.mpr h)]
  exact Int.le_floor.mpr (by exact_mod_cast h)

theorem compute_layout_eq (doc : Document) (zoom : ℚ) (rotation : ℤ) :
    compute_layout doc zoom rotation =
      specLayout (fun z => qtrunc (PAGE_GAP * z)) doc zoom rotation := by
  simp only [compute_layout, specLayout]
  rw [layoutLoop_eq_spec zoom rotation (qtrunc (PAGE_GAP * zoom))
      doc.pages.length doc.pages 0 [] [] 0 0 (by simp)]
  simp

theorem specTops_length (zoom : ℚ) (rotation : ℤ) (gap : ℤ) :
    ∀ (l : List PageData) (y : ℤ), (specTops zoom rotation gap y l).length = l.length
  | [], _ => rfl
  | p :: rest, y => by
    simp [specTops, specTops_length zoom rotation gap rest]

theorem specTops_getD_succ (zoom : ℚ) (rotation : ℤ) (gap : ℤ) :
    ∀ (l : List PageData) (y : ℤ) (i : ℕ), i + 1 < l.length →
      (specTops zoom rotation gap y l).getD (i + 1) 0 =
        (specTops zoom rotation gap y l).getD i 0 +
          (specScaledSize zoom rotation (l.getD i default)).2 + gap := by
  intro l
  induction l with
  | nil => intro y i h; simp at h
  | cons p rest ih =>
    intro y i h
    cases rest with
    | nil => simp at h
    | cons q t =>
      cases i with
      | zero =>
        simp only [specTops, List.isEmpty_cons, if_false, List.getD_cons_succ,
          List.getD_cons_zero]
        cases t <;> rfl
      | succ m =>
        have hm : m + 1 < (q :: t).length := by
          simp only [List.length_cons] at h ⊢; omega
        simp only [specTops, List.getD_cons_succ]
        exact ih _ m hm

theorem getD_map_specSize (zoom : ℚ) (rotation : ℤ) (l : List PageData) (i : ℕ)
    (h : i < l.length) :
    (l.map (specScaledSize zoom rotation)).getD i (0, 0) =
      specScaledSize zoom rotation (l.getD i default) := by
  rw [List.getD_eq_getElem?_getD, List.getElem?_map, List.getElem?_eq_getElem h,
    List.getD_eq_getElem?_getD, List.getElem?_eq_getElem h]
  rfl

theorem getD_zip_pair (l1 : List ℤ) (l2 : List (ℤ × ℤ)) (i : ℕ)
    (h1 : i < l1.length) (h2 : i < l2.length) :
    (l1.zip l2).getD i default = (l1.getD i 0, l2.getD i (0, 0)) := by
  have hz : (l1.zip l2)[i]? = some (l1[i], l2[i]) := by
    rw [List.zip, List.getElem?_zipWith, List.getElem?_eq_getElem h1,
      List.getElem?_eq_getElem h2]
  rw [List.getD_eq_getElem?_getD, hz, List.getD_eq_getElem?_getD,
    List.getD_eq_getElem?_getD, List.getElem?_eq_getElem h1,
    List.getElem?_eq_getElem h2]
  rfl

/-- The bottom edge of a (top, (w, h)) triple seen by the first loop. -/
def bottomOf (p : ℤ × ℤ × ℤ) : ℤ := p.1 + p.2.2

theorem firstLoop_found (s : ℤ) :
    ∀ (l : List (ℤ × ℤ × ℤ)) (i fv : ℕ), (∃ p ∈ l, s < bottomOf p) →
      ∃ j, j < l.length ∧ firstLoop l s i fv = i + j ∧
        s < bottomOf (l.getD j default) ∧
        ∀ m, m < j → bottomOf (l.getD m default) ≤ s := by
  intro l
  induction l with
  | nil => intro i fv h; simp at h
  | cons p rest ih =>
    intro i fv hex
    obtain ⟨t, sz⟩ := p
    by_cases hb : t + sz.2 > s
    · exact ⟨0, by simp, by simp [firstLoop, hb], by simpa [bottomOf] using hb,
        fun m hm => absurd hm (by omega)⟩
    · have hex2 : ∃ p ∈ rest, s < bottomOf p := by
        obtain ⟨q, hq, hqs⟩ := hex
        rcases List.mem_cons.mp hq with rfl | hq2
        · exact absurd hqs (by simpa [bottomOf] using hb)
        · exact ⟨q, hq2, hqs⟩
      obtain ⟨j, hj, heq, hbj, hall⟩ := ih (i + 1) i hex2
      refine ⟨j + 1, by simpa using (by omega : j + 1 < rest.length + 1), ?_, ?_, ?_⟩
      · rw [show firstLoop ((t, sz) :: rest) s i fv = firstLoop rest s (i + 1) i
          from by simp [firstLoop, hb], heq]
        omega
      · simpa [List.getD_cons_succ] using hbj
      · intro m hm
        cases m with
        | zero => simpa [bottomOf] using le_of_not_lt hb
        | succ m2 =>
          rw [List.getD_cons_succ]
          exact hall m2 (by omega)

theorem lastLoop_spec (tops : List ℤ) (vb : ℤ) (n : ℕ) :
    ∀ (k i : ℕ), n - i = k → i ≤ n →
      i ≤ lastLoop tops vb n i i ∧ lastLoop tops vb n i i ≤ n ∧
      (∀ j, i ≤ j → j < lastLoop tops vb n i i → tops.getD j 0 < vb) ∧
      (lastLoop tops vb n i i < n → vb ≤ tops.getD (lastLoop tops vb n i i) 0) := by
  intro k
  induction k with
  | zero =>
    intro i hk hin
    have hi : ¬ i < n := by omega
    rw [lastLoop, if_neg hi]
    exact ⟨le_refl _, by omega, fun j hj hj2 => absurd hj2 (by omega),
      fun h => absurd h hi⟩
  | succ k ih =>
    intro i hk hin
    have hi : i < n := by omega
    rw [lastLoop, if_pos hi]
    by_cases hge : tops.getD i 0 ≥ vb
    · rw [if_pos hge]
      exact ⟨le_refl _, by omega, fun j hj hj2 => absurd hj2 (by omega),
        fun _ => hge⟩
    · rw [if_neg hge]
      obtain ⟨h1, h2, h3, h4⟩ := ih (i + 1) (by omega) (by omega)
      refine ⟨by omega, h2, fun j hj hj2 => ?_, h4⟩
      rcases Nat.eq_or_lt_of_le hj with rfl | hj2'
      · exact not_le.mp hge
      · exact h3 j (by omega) hj2

theorem getD_mono_of_adj (T : List ℤ) (step : ℕ → ℤ)
    (hadj : ∀ i, i + 1 < T.length → T.getD (i + 1) 0 = T.getD i 0 + step i)
    (hnn : ∀ i, i + 1 < T.length → 0 ≤ step i) :
    ∀ j i, i ≤ j → j < T.length → T.getD i 0 ≤ T.getD j 0 := by
  intro j
  induction j with
  | zero =>
    intro i hij _
    have h0 : i = 0 := by omega
    exact le_of_eq (by rw [h0])
  | succ m ih =>
    intro i hij hj
    rcases Nat.lt_or_ge i (m + 1) with hlt | hge
    · have h1 := ih i (by omega) (by omega)
      have h2 := hadj m (by omega)
      have h3 := hnn m (by omega)
      omega
    · have : i = m + 1 := by omega
      simp [this]

theorem ico_inter_nonempty (t h s v : ℤ) (hh : 0 < h) (hv : 0 < v) :
    ((Set.Ico t (t + h)) ∩ (Set.Ico s (s + v))).Nonempty ↔
      t < s + v ∧ s < t + h := by
  rw [Set.Ico_inter_Ico, Set.nonempty_Ico]
  simp only [sup_lt_iff, lt_inf_iff]
  omega

/-- The vertical extent [top, top+height) of page `i` in `layout` intersects
the viewport interval [scroll_y, scroll_y+viewport_height). -/
def pageIntersects (layout : PageLayout) (scroll_y viewport_height : ℤ)
    (i : ℕ) : Prop :=
  ((Set.Ico (layout.page_tops.getD i 0)
      (layout.page_tops.getD i 0 + (layout.page_sizes.getD i (0, 0)).2)) ∩
    (Set.Ico scroll_y (scroll_y + viewport_height))).Nonempty

/-- C2 (amended): for a non-empty document, provided the viewport height is
positive, every page's scaled height is positive, and the scroll offset lies
above the bottom of the last page, `find_visible_pages` returns a contiguous
half-open range containing exactly the pages whose vertical extent
[top, top+height) intersects [scrollY, scrollY+viewportHeight); outside these
conditions the code may return a fallback range containing a non-intersecting
page. -/
theorem C2_find_visible_pages_partition (doc : Document) (zoom : ℚ)
    (rotation : ℤ) (scroll_y viewport_height : ℤ)
    (hne : doc.pages ≠ []) (hv : 0 < viewport_height) (hzoom : 0 ≤ zoom)
    (hpos : ∀ i, i < doc.pages.length →
      0 < ((compute_layout doc zoom rotation).page_sizes.getD i (0, 0)).2)
    (hs : scroll_y <
      (compute_layout doc zoom rotation).page_tops.getD
        (doc.pages.length - 1) 0 +
      ((compute_layout doc zoom rotation).page_sizes.getD
        (doc.pages.length - 1) (0, 0)).2) :
    ∀ i, i < doc.pages.length →
      (((find_visible_pages doc (compute_layout doc zoom rotation) scroll_y
            viewport_height).1 ≤ i ∧
        i < (find_visible_pages doc (compute_layout doc zoom rotation) scroll_y
            viewport_height).2) ↔
        pageIntersects (compute_layout doc zoom rotation) scroll_y
          viewport_height i) := by
  have hLs := compute_layout_eq doc zoom rotation
  have hG : 0 ≤ qtrunc (PAGE_GAP * zoom) :=
    qtrunc_nonneg _ (mul_nonneg (by norm_num [PAGE_GAP]) hzoom)
  have hn : 0 < doc.pages.length := List.length_pos.mpr hne
  set L := compute_layout doc zoom rotation with hLdef
  have hT : L.page_tops =
      specTops zoom rotation (qtrunc (PAGE_GAP * zoom)) 0 doc.pages := by
    rw [hLs]; rfl
  have hS : L.page_sizes = doc.pages.map (specScaledSize zoom rotation) := by
    rw [hLs]; rfl
  have hTlen : L.page_tops.length = doc.pages.length := by
    rw [hT, specTops_length]
  have hSlen : L.page_sizes.length = doc.pages.length := by
    rw [hS, List.length_map]
  have hadj : ∀ i, i + 1 < doc.pages.length →
      L.page_tops.getD (i + 1) 0 =
        L.page_tops.getD i 0 + (L.page_sizes.getD i (0, 0)).2 +
          qtrunc (PAGE_GAP * zoom) := by
    intro i h
    rw [hT, hS, specTops_getD_succ zoom rotation _ doc.pages 0 i h,
      getD_map_specSize zoom rotation doc.pages i (by omega)]
  have hmono : ∀ j i, i ≤ j → j < doc.pages.length →
      L.page_tops.getD i 0 ≤ L.page_tops.getD j 0 := by
    have hm := getD_mono_of_adj L.page_tops
      (fun i => (L.page_sizes.getD i (0, 0)).2 + qtrunc (PAGE_GAP * zoom))
      (fun i h => by rw [hTlen] at h; rw [hadj i h]; dsimp only; ring)
      (fun i h => by
        rw [hTlen] at h
        have := hpos i (by omega)
        dsimp only
        omega)
    intro j i hij hj
    exact hm j i hij (by omega)
  have hbot_le_top : ∀ i j, i < j → j < doc.pages.length →
      L.page_tops.getD i 0 + (L.page_sizes.getD i (0, 0)).2 ≤
        L.page_tops.getD j 0 := by
    intro i j hij hj
    have h1 := hadj i (by omega)
    have h2 := hmono j (i + 1) (by omega) hj
    omega
  have hzlen : (L.page_tops.zip L.page_sizes).length = doc.pages.length := by
    rw [List.length_zip, hTlen, hSlen, Nat.min_self]
  have hmem : (L.page_tops.zip L.page_sizes).getD (doc.pages.length - 1)
      default ∈ L.page_tops.zip L.page_sizes := by
    have hidx : doc.pages.length - 1 < (L.page_tops.zip L.page_sizes).length := by
      omega
    rw [List.getD_eq_getElem?_getD, List.getElem?_eq_getElem hidx,
      Option.getD_some]
    exact List.getElem_mem hidx
  have hex : ∃ p ∈ L.page_tops.zip L.page_sizes, scroll_y < bottomOf p := by
    refine ⟨_, hmem, ?_⟩
    rw [getD_zip_pair _ _ _ (by omega) (by omega)]
    simpa [bottomOf] using hs
  obtain ⟨j, hj, heq, hbj, hall⟩ :=
    firstLoop_found scroll_y (L.page_tops.zip L.page_sizes) 0 0 hex
  rw [hzlen] at hj
  rw [Nat.zero_add] at heq
  rw [getD_zip_pair _ _ _ (by omega) (by omega)] at hbj
  simp only [bottomOf] at hbj
  obtain ⟨hm1, hm2, hm3, hm4⟩ := lastLoop_spec L.page_tops
    (scroll_y + viewport_height) doc.pages.length (doc.pages.length - j) j rfl
    (by omega)
  have hie : doc.pages.isEmpty = false := by
    cases hp : doc.pages with
    | nil => exact absurd hp hne
    | cons a t => rfl
  have hfvp : find_visible_pages doc L scroll_y viewport_height =
      (j, min (lastLoop L.page_tops (scroll_y + viewport_height)
        doc.pages.length j j) doc.pages.length) := by
    unfold find_visible_pages
    rw [hie]
    simp only [Bool.false_eq_true, if_false, heq]
  intro i hi
  rw [hfvp]
  dsimp only
  unfold pageIntersects
  rw [ico_inter_nonempty _ _ _ _ (hpos i hi) hv]
  constructor
  · rintro ⟨hfi, hil⟩
    rw [lt_min_iff] at hil
    refine ⟨hm3 i hfi hil.1, ?_⟩
    rcases Nat.eq_or_lt_of_le hfi with rfl | hji
    · exact hbj
    · have h1 := hbot_le_top j i hji hi
      have h2 := hpos i hi
      omega
  · rintro ⟨h1, h2⟩
    constructor
    · by_contra hc
      push_neg at hc
      have hib := hall i hc
      rw [getD_zip_pair _ _ _ (by omega) (by omega)] at hib
      simp only [bottomOf] at hib
      omega
    · rw [lt_min_iff]
      refine ⟨?_, hi⟩
      by_contra hc
      push_neg at hc
      have hlv : lastLoop L.page_tops (scroll_y + viewport_height)
          doc.pages.length j j < doc.pages.length := by omega
      have h4 := hm4 hlv
      have h5 := hmono i _ hc hi
      omega

/-- A one-page 100×10 document. -/
def exDocC2 : Document :=
  { doc_type := DocumentType.Image
    pages := [{ width := 100, height := 10, wic_bitmap := some 0,
                pixel_data := none, stride := 0 }]
    bitmap_cache := [] }

/-- C2 (counterexample): with the single 100×10 page at zoom 1, scroll
offset 10 (exactly the page's bottom) and viewport height 5, the code
returns the non-empty range (0, 1) although page 0's extent [0, 10) does not
intersect the viewport [10, 15): the claim requires a page whose bottom
equals scrollY to be excluded. -/
theorem C2_counterexample :
    find_visible_pages exDocC2 (compute_layout exDocC2 1 0) 10 5 = (0, 1) ∧
      ¬ pageIntersects (compute_layout exDocC2 1 0) 10 5 0 := by
  have hLval : compute_layout exDocC2 1 0 =
      { page_tops := [0], total_height := 10, max_width := 100,
        page_sizes := [(100, 10)] } := by
    simp [compute_layout, exDocC2, layoutLoop, PAGE_GAP]
    norm_num [qtrunc]
  have hfl : firstLoop [((0 : ℤ), ((100 : ℤ), (10 : ℤ)))] 10 0 0 = 0 := by
    norm_num [firstLoop]
  have hll : lastLoop [(0 : ℤ)] 15 1 0 0 = 1 := by
    rw [lastLoop]
    norm_num
    rw [lastLoop]
    norm_num
  constructor
  · rw [hLval]
    unfold find_visible_pages
    simp [exDocC2, hfl, hll]
  · rw [hLval]
    intro hcon
    unfold pageIntersects at hcon
    obtain ⟨x, hx⟩ := hcon
    simp [Set.mem_Ico] at hx
    omega

/-- A one-page 100×100 document. -/
def exDocC2w : Document :=
  { doc_type := DocumentType.Pdf
    pages := [{ width := 100, height := 100, wic_bitmap := none,
                pixel_data := some [], stride := 400 }]
    bitmap_cache := [] }

/-- C2 witness: on the 100×100 one-page document at zoom 1 with scroll 0
and viewport 50, the page intersects the viewport, so it lies in the
returned range. -/
theorem C2_find_visible_pages_partition_witness :
    (find_visible_pages exDocC2w (compute_layout exDocC2w 1 0) 0 50).1 ≤ 0 ∧
      0 < (find_visible_pages exDocC2w (compute_layout exDocC2w 1 0) 0 50).2 := by
  have hLval : compute_layout exDocC2w 1 0 =
      { page_tops := [0], total_height := 100, max_width := 100,
        page_sizes := [(100, 100)] } := by
    simp [compute_layout, exDocC2w, layoutLoop, PAGE_GAP]
    norm_num [qtrunc]
  have h := C2_find_visible_pages_partition exDocC2w 1 0 0 50
    (by simp [exDocC2w]) (by norm_num) (by norm_num)
    (fun i hi => by
      have h0 : i = 0 := by simp [exDocC2w] at hi; omega
      subst h0
      rw [hLval]
      norm_num)
    (by rw [hLval]; norm_num [exDocC2w])
  exact (h 0 (by simp [exDocC2w])).mpr (by
    unfold pageIntersects
    rw [hLval]
    exact ⟨0, by norm_num [Set.mem_Ico]⟩)

end SimpliView
